import Mathlib

set_option exponentiation.threshold 4096

/-!
# Timeline component (`src/components/timeline/Timeline.js`)

A shallow embedding of the rendering logic of the `Timeline` React component:
the props and the query result it destructures, the values derived with
`useMemo` (`hasPreviousEntries`, `shouldRenderGoToTop`), the closures
`renderScrollSentinel`, `renderEntries`, `renderBody`, and the element the
component returns.

Modelling conventions.

* A React element tree is a value; the JSX written in the source fixes its
  shape, so every element kind has its own structure. Opaque pass-through
  props (`glossary`, `filters`, the setters) carry no logic and are left out.
* JavaScript truthiness is made explicit: an optional string is truthy when
  present and non-empty (`truthy`), an optional number when present,
  non-zero and not NaN (`JsNumber.truthy`).
* A JavaScript number is an IEEE 754 binary64 value (`JsNumber`): NaN, an
  infinity, or a finite value held as an integer count of the smallest
  positive double `2^-1074`, of which every finite double is a multiple.
  `JsNumber.add` is the addition of the language: the exact sum rounded to
  53 significant bits, ties to even, overflowing to an infinity. The two
  zeros are not told apart: both are falsy, and an accumulator that starts
  at `0` never becomes `-0`.
* `entry.scamTotal` is an optional number, absent is `none`.
* `Array.prototype.map` with a callback that updates the captured variable
  `runningScamTotal` is `mapIdxAccum`: the variable is threaded as state.
* Reading a property of `undefined` throws a `TypeError`; render functions
  that can do so return `Except RenderError _`.
* A callback with a side effect returns the list of effects it performs.
* `isLoading`, `isError` and `isSuccess` are separate fields, as destructured
  from `queryResult`; `QueryResult.statusDerived` says that they are the
  flags of a query in one state, as the query layer delivers them.
-/

namespace TimelineComponent

/-! ## JavaScript numbers -/

/-- A JavaScript number. `finite units` is the double of value
`units * 2^-1074`. -/
inductive JsNumber where
  | nan
  | infinity (negative : Bool)
  | finite (units : Int)
  deriving DecidableEq, Repr

/-- The value `1` in units of `2^-1074`. -/
def JsNumber.unitsPerOne : Nat := 2 ^ 1074

/-- The value `2^1024` in units of `2^-1074`: magnitudes that round to this
or more overflow. -/
def JsNumber.overflowUnits : Nat := 2 ^ 2098

/-- With `fuel` enough, the number of times `n` can be divided by `2^w`
before it drops below `2^w`. -/
def JsNumber.shiftCount (w : Nat) : Nat → Nat → Nat
  | 0, _ => 0
  | fuel + 1, n => if n < 2 ^ w then 0 else JsNumber.shiftCount w fuel (n / 2 ^ w) + 1

/-- Number of binary digits of `n` (`0` for `0`), counted in blocks of 64
bits and then bit by bit. -/
def JsNumber.bitLength (n : Nat) : Nat :=
  let c := JsNumber.shiftCount 64 n n
  let m := n / 2 ^ (64 * c)
  64 * c + (if m = 0 then 0 else JsNumber.shiftCount 1 64 m + 1)

/-- Number of low bits of `n` that do not fit a 53-bit significand. -/
def JsNumber.dropBits (n : Nat) : Nat := JsNumber.bitLength n - 53

/-- Round a magnitude to 53 significant bits, to nearest, ties to even. -/
def JsNumber.roundNat (n : Nat) : Nat :=
  let s := JsNumber.dropBits n
  let q := n / 2 ^ s
  let r := n % 2 ^ s
  let q := if 2 ^ s < 2 * r ∨ (2 * r = 2 ^ s ∧ q % 2 = 1) then q + 1 else q
  q * 2 ^ s

/-- The double nearest to the exact value of `k` units. -/
def JsNumber.ofExact (k : Int) : JsNumber :=
  let m := JsNumber.roundNat k.natAbs
  if JsNumber.overflowUnits ≤ m then JsNumber.infinity (decide (k < 0))
  else JsNumber.finite (if k < 0 then -(m : Int) else (m : Int))

/-- The `+` of the language on numbers. -/
def JsNumber.add : JsNumber → JsNumber → JsNumber
  | JsNumber.nan, _ => JsNumber.nan
  | _, JsNumber.nan => JsNumber.nan
  | JsNumber.infinity a, JsNumber.infinity b =>
    if a == b then JsNumber.infinity a else JsNumber.nan
  | JsNumber.infinity a, JsNumber.finite _ => JsNumber.infinity a
  | JsNumber.finite _, JsNumber.infinity b => JsNumber.infinity b
  | JsNumber.finite x, JsNumber.finite y => JsNumber.ofExact (x + y)

/-- Truthiness of a number: `NaN` and `0` are falsy. -/
def JsNumber.truthy : JsNumber → Bool
  | JsNumber.nan => false
  | JsNumber.infinity _ => true
  | JsNumber.finite k => k != 0

/-- The number `0`. -/
def JsNumber.zero : JsNumber := JsNumber.finite 0

/-- The number with integer value `n` (a double when `n` has at most 53
significant bits, in particular when `|n| ≤ 2^53`). -/
def JsNumber.ofInt (n : Int) : JsNumber :=
  JsNumber.finite (n * (JsNumber.unitsPerOne : Int))

/-- The values that are doubles: a finite value is one when its magnitude is
below `2^1024` and rounding leaves it unchanged. -/
def JsNumber.isDouble : JsNumber → Prop
  | JsNumber.finite k =>
    JsNumber.roundNat k.natAbs = k.natAbs ∧ k.natAbs < JsNumber.overflowUnits
  | _ => True

/-! ## Data model -/

/-- Feed entry: only the fields read by `Timeline.js`. -/
structure Entry where
  id : String
  scamTotal : Option JsNumber
  deriving DecidableEq, Repr

/-- One page of results: `page.entries` and `page.hasPrev`. -/
structure Page where
  entries : List Entry
  hasPrev : Bool
  deriving DecidableEq, Repr

/-- The `data` object of an infinite query: `data.pages`. -/
structure InfiniteData where
  pages : List Page
  deriving DecidableEq, Repr

/-- The `queryResult` prop, as destructured in the component (`fetchNextPage`
is an action; calling it is the effect `Effect.fetchNextPage`). -/
structure QueryResult where
  data : Option InfiniteData
  hasNextPage : Bool
  isFetching : Bool
  isLoading : Bool
  isError : Bool
  isSuccess : Bool
  deriving DecidableEq, Repr

/-- Props of `Timeline` that take part in its logic. -/
structure Props where
  queryResult : QueryResult
  griftTotal : JsNumber
  selectedEntryFromSearch : Option String
  startAtId : Option String
  deriving DecidableEq, Repr

/-- Values the hooks return on the render under consideration:
`useIsBrowserRendering`, `useWindowWidth`, the `useState` cell
`currentRunningScamTotal` and `useInView` for the header. -/
structure Hooks where
  isBrowserRendering : Bool
  windowWidth : Nat
  currentRunningScamTotal : JsNumber
  headerInView : Bool
  deriving DecidableEq, Repr

/-- Side effects a callback can perform. -/
inductive Effect where
  | fetchNextPage
  deriving DecidableEq, Repr

/-- Exceptions thrown while rendering. -/
inductive RenderError where
  | typeError (msg : String)
  deriving DecidableEq, Repr

/-! ## Rendered elements -/

/-- The `InView` element wrapping `div.scroll-sentinel`. -/
structure ScrollSentinel where
  threshold : Nat
  onChange : Bool → List Effect

/-- Props handed to one `Entry` element. -/
structure EntryElement where
  key : String
  entry : Entry
  className : String
  windowWidth : Nat
  runningScamTotal : JsNumber
  currentRunningScamTotal : JsNumber
  shouldScrollToElement : Bool
  deriving DecidableEq, Repr

/-- What the inner `map` callback returns for one entry: the `Entry` element,
or a keyed fragment holding the scroll sentinel followed by the element. -/
inductive EntryItem where
  | plain (element : EntryElement)
  | withSentinel (key : String) (sentinel : ScrollSentinel) (element : EntryElement)

/-- The keyed fragment the outer `map` callback returns for one page. -/
structure PageFragment where
  key : String
  children : List EntryItem

/-- The fragment returned by `renderEntries`.
`customEntryHead = some e` when `CustomEntryHead` is rendered with `entry = e`
(`e = none` for `undefined`); `loader` is the trailing `Loader`. -/
structure RenderedEntries where
  goToTop : Bool
  customEntryHead : Option (Option Entry)
  smallTopMargin : Bool
  pages : List PageFragment
  loader : Bool

/-- What `renderBody` returns. -/
inductive Body where
  | loader
  | error
  | entries (rendered : RenderedEntries)

/-- Props of `FixedAtBottom`. -/
structure FixedAtBottomElement where
  headerInView : Bool
  shouldRenderGriftCounter : Bool
  runningGriftTotal : JsNumber
  griftTotal : JsNumber
  deriving DecidableEq, Repr

/-- Props of `Header` (the refs are left out). -/
structure HeaderElement where
  windowWidth : Nat
  deriving DecidableEq, Repr

/-- Props of `Filters` (`filters` and the setters are passed through). -/
structure FiltersElement where
  windowWidth : Nat
  deriving DecidableEq, Repr

/-- The fragment returned by `Timeline`: `Header`, optional `Filters`, the
`div.timeline-page` (its `aria-busy`, the no-script paragraph, the body
wrapper with its `display` style) and `FixedAtBottom`. -/
structure TimelineElement where
  header : HeaderElement
  filters : Option FiltersElement
  ariaBusy : Bool
  noJs : Bool
  bodyDisplay : String
  body : Body
  fixedAtBottom : FixedAtBottomElement

/-! ## JavaScript helpers -/

/-- Truthiness of an optional string: `undefined` and the empty string are falsy. -/
def truthy : Option String → Bool
  | none => false
  | some s => s != ""

/-- Map `f` over a list as `Array.prototype.map` does, passing the element
and its index, with a captured mutable variable threaded through the calls in
order. Returns the mapped list and the final value of the variable. -/
def mapIdxAccum {α β σ : Type} (f : α → Nat → σ → β × σ) : List α → Nat → σ → List β × σ
  | [], _, s => ([], s)
  | x :: xs, i, s =>
    let r := f x i s
    let rest := mapIdxAccum f xs (i + 1) r.2
    (r.1 :: rest.1, rest.2)

/-- Modelled from the spec: the `queryResult` prop is the result object of the
external query layer, whose declaration is not part of this repository
fragment. Its flags describe the one state the query is in (the component is
to "branch on loading/error/success state"): at most one of `isLoading`,
`isError` and `isSuccess` is set. -/
def QueryResult.statusDerived (q : QueryResult) : Bool :=
  match q.isLoading, q.isError, q.isSuccess with
  | true, false, false => true
  | false, true, false => true
  | false, false, true => true
  | false, false, false => true
  | _, _, _ => false

/-! ## The component -/

/-- Truthiness of the `useMemo` value `hasPreviousEntries`. -/
def hasPreviousEntries (q : QueryResult) : Bool :=
  q.isSuccess &&
    (match q.data with
     | none => false
     | some data =>
       data.pages.length != 0 &&
         (match data.pages[0]? with
          | none => false
          | some page => page.hasPrev))

/-- The `useMemo` value `shouldRenderGoToTop`. -/
def shouldRenderGoToTop (props : Props) : Bool :=
  (truthy props.startAtId && hasPreviousEntries props.queryResult) ||
    truthy props.selectedEntryFromSearch

/-- The closure `renderScrollSentinel`; `isFetching` is the captured variable. -/
def renderScrollSentinel (isFetching : Bool) : ScrollSentinel :=
  { threshold := 0
    onChange := fun inView =>
      if inView && !isFetching then [Effect.fetchNextPage] else [] }

/-- Body of the inner `map` callback of `renderEntries`, for the entry at
`entryInd` of the page at `pageInd`; `numEntries` is `page.entries.length`. -/
def renderEntry (props : Props) (hooks : Hooks) (pageInd : Nat) (isLastPage : Bool)
    (numEntries : Nat) (entry : Entry) (entryInd : Nat) (runningScamTotal : JsNumber) :
    EntryItem × JsNumber :=
  let isLastEntry : Bool := (entryInd : Int) == (numEntries : Int) - 1
  let className := if entryInd % 2 == 0 then "even" else "odd"
  let className := if pageInd == 0 && entryInd == 0 then className ++ " first" else className
  let runningScamTotal :=
    match entry.scamTotal with
    | none => runningScamTotal
    | some scamTotal =>
      if scamTotal.truthy then runningScamTotal.add scamTotal else runningScamTotal
  let entryElement : EntryElement :=
    { key := entry.id
      entry := entry
      className := className
      windowWidth := hooks.windowWidth
      runningScamTotal := runningScamTotal
      currentRunningScamTotal := hooks.currentRunningScamTotal
      shouldScrollToElement := some entry.id == props.startAtId }
  if isLastPage && isLastEntry then
    (EntryItem.withSentinel (entry.id ++ "-withSentinel")
      (renderScrollSentinel props.queryResult.isFetching) entryElement, runningScamTotal)
  else
    (EntryItem.plain entryElement, runningScamTotal)

/-- Body of the outer `map` callback of `renderEntries`, for the page at
`pageInd`; `numPages` is `data.pages.length`. -/
def renderPage (props : Props) (hooks : Hooks) (numPages : Nat) (page : Page)
    (pageInd : Nat) (runningScamTotal : JsNumber) : PageFragment × JsNumber :=
  let isLastPage : Bool := (pageInd : Int) == (numPages : Int) - 1
  let r := mapIdxAccum (renderEntry props hooks pageInd isLastPage page.entries.length)
    page.entries 0 runningScamTotal
  ({ key := "page-" ++ toString pageInd, children := r.1 }, r.2)

/-- The closure `renderEntries`. -/
def renderEntries (props : Props) (hooks : Hooks) : Except RenderError RenderedEntries :=
  let runningScamTotal : JsNumber := JsNumber.zero
  let goToTop := shouldRenderGoToTop props
  match props.queryResult.data with
  | none => Except.error (RenderError.typeError "data is undefined")
  | some data =>
    let head : Except RenderError (Option (Option Entry)) :=
      if truthy props.startAtId then
        match data.pages[0]? with
        | none => Except.error (RenderError.typeError "data.pages[0] is undefined")
        | some page => Except.ok (some page.entries[0]?)
      else Except.ok none
    match head with
    | Except.error e => Except.error e
    | Except.ok customEntryHead =>
      Except.ok
        { goToTop := goToTop
          customEntryHead := customEntryHead
          smallTopMargin := goToTop
          pages := (mapIdxAccum (renderPage props hooks data.pages.length)
            data.pages 0 runningScamTotal).1
          loader := props.queryResult.hasNextPage }

/-- The closure `renderBody`. -/
def renderBody (props : Props) (hooks : Hooks) : Except RenderError Body :=
  if props.queryResult.isLoading then Except.ok Body.loader
  else if props.queryResult.isError then Except.ok Body.error
  else (renderEntries props hooks).map Body.entries

/-- The value returned by the `Timeline` component. -/
def Timeline (props : Props) (hooks : Hooks) : Except RenderError TimelineElement :=
  let q := props.queryResult
  let showFilters : Bool :=
    hooks.isBrowserRendering && (!truthy props.startAtId || !hasPreviousEntries q)
  match renderBody props hooks with
  | Except.error e => Except.error e
  | Except.ok body =>
    Except.ok
      { header := { windowWidth := hooks.windowWidth }
        filters := if showFilters then some { windowWidth := hooks.windowWidth } else none
        ariaBusy := q.isLoading
        noJs := !hooks.isBrowserRendering
        bodyDisplay := if hooks.isBrowserRendering then "initial" else "none"
        body := body
        fixedAtBottom :=
          { headerInView := hooks.headerInView
            shouldRenderGriftCounter := !truthy props.startAtId || !hasPreviousEntries q
            runningGriftTotal := hooks.currentRunningScamTotal
            griftTotal := props.griftTotal } }

/-! ## Reading a rendered tree -/

/-- The `Entry` element inside an item. -/
def EntryItem.element : EntryItem → EntryElement
  | EntryItem.plain e => e
  | EntryItem.withSentinel _ _ e => e

/-- Leaves of a rendered body, in document order. -/
inductive Leaf where
  | loader
  | error
  | goToTop
  | customEntryHead (entry : Option Entry)
  | sentinel (s : ScrollSentinel)
  | entry (e : EntryElement)

def Leaf.isSentinel : Leaf → Bool
  | Leaf.sentinel _ => true
  | _ => false

def Leaf.isEntry : Leaf → Bool
  | Leaf.entry _ => true
  | _ => false

def Leaf.isLoader : Leaf → Bool
  | Leaf.loader => true
  | _ => false

def Leaf.isError : Leaf → Bool
  | Leaf.error => true
  | _ => false

def Leaf.isGoToTop : Leaf → Bool
  | Leaf.goToTop => true
  | _ => false

/-- Leaves of one item: the sentinel, when present, precedes the element. -/
def EntryItem.leaves : EntryItem → List Leaf
  | EntryItem.plain e => [Leaf.entry e]
  | EntryItem.withSentinel _ s e => [Leaf.sentinel s, Leaf.entry e]

/-- The `Entry` elements of a rendered entry list, in document order. -/
def RenderedEntries.entryElements (r : RenderedEntries) : List EntryElement :=
  r.pages.flatMap fun pf => pf.children.map EntryItem.element

/-- Leaves produced by the two nested `map` calls, in document order. -/
def RenderedEntries.entryLeaves (r : RenderedEntries) : List Leaf :=
  r.pages.flatMap fun pf => pf.children.flatMap EntryItem.leaves

/-- All leaves of the fragment returned by `renderEntries`. -/
def RenderedEntries.leaves (r : RenderedEntries) : List Leaf :=
  (if r.goToTop then [Leaf.goToTop] else []) ++
  (match r.customEntryHead with
   | none => []
   | some e => [Leaf.customEntryHead e]) ++
  r.entryLeaves ++
  (if r.loader then [Leaf.loader] else [])

/-- All leaves of a body. -/
def Body.leaves : Body → List Leaf
  | Body.loader => [Leaf.loader]
  | Body.error => [Leaf.error]
  | Body.entries r => r.leaves

/-- The first class token of a `className` (the text before the first blank):
the parity class `"even"` or `"odd"` of an entry. -/
def parityClass (className : String) : String :=
  String.mk (className.data.takeWhile fun c => c != ' ')

/-- Contribution of an entry to the running total, as the specification puts
it: its `scamTotal`, or `0` when it has none (`NaN`, which is not a number,
counts as none). -/
def contribution (entry : Entry) : JsNumber :=
  match entry.scamTotal with
  | none => JsNumber.zero
  | some JsNumber.nan => JsNumber.zero
  | some scamTotal => scamTotal

/-- Sum of a list of numbers added to `start` one by one, in order. -/
def sumFrom (start : JsNumber) (xs : List JsNumber) : JsNumber :=
  xs.foldl JsNumber.add start

/-- Sum of the contributions of a list of entries, added in order from `0`. -/
def contributionSum (entries : List Entry) : JsNumber :=
  sumFrom JsNumber.zero (entries.map contribution)

/-- The entries of all pages in display order. -/
def displayOrder (pages : List Page) : List Entry :=
  pages.flatMap Page.entries

/-- Running totals of a list of entries, starting from `start`: the total
after each entry. -/
def runningSums (start : JsNumber) : List Entry → List JsNumber
  | [] => []
  | e :: es =>
    start.add (contribution e) :: runningSums (start.add (contribution e)) es

/-- Leaves of a run of `Entry` elements in which the scroll sentinel stands
immediately before the last element (no element, no sentinel). -/
def sentinelBeforeLast (s : ScrollSentinel) : List EntryElement → List Leaf
  | [] => []
  | [e] => [Leaf.sentinel s, Leaf.entry e]
  | e :: e2 :: es => Leaf.entry e :: sentinelBeforeLast s (e2 :: es)

/-- The `Entry` elements of the items of one page. -/
def itemElements (items : List EntryItem) : List EntryElement :=
  items.map EntryItem.element

/-- The `Entry` elements of a list of page fragments, in document order. -/
def fragmentElements (frags : List PageFragment) : List EntryElement :=
  frags.flatMap fun pf => pf.children.map EntryItem.element

/-- The leaves of a list of page fragments, in document order. -/
def fragmentLeaves (frags : List PageFragment) : List Leaf :=
  frags.flatMap fun pf => pf.children.flatMap EntryItem.leaves

/-- Whether the go-to-top control occurs in the rendered body. -/
def TimelineElement.rendersGoToTop (t : TimelineElement) : Bool :=
  t.body.leaves.any Leaf.isGoToTop

/-- Whether the `Filters` component is rendered. -/
def TimelineElement.rendersFilters (t : TimelineElement) : Bool :=
  t.filters.isSome

/-- The same props with `queryResult.data.pages` replaced. -/
def Props.withPages (props : Props) (pages : List Page) : Props :=
  { props with queryResult := { props.queryResult with data := some { pages := pages } } }

/-! ## Example inputs -/

def entryA : Entry := { id := "a", scamTotal := some (JsNumber.ofInt 5) }

def entryB : Entry := { id := "b", scamTotal := none }

def entryC : Entry := { id := "c", scamTotal := some (JsNumber.ofInt 7) }

def exampleHooks : Hooks :=
  { isBrowserRendering := true, windowWidth := 1024,
    currentRunningScamTotal := JsNumber.zero, headerInView := true }

/-- A settled, successful query result holding `pages`. -/
def successQuery (pages : List Page) : QueryResult :=
  { data := some { pages := pages }, hasNextPage := false, isFetching := false,
    isLoading := false, isError := false, isSuccess := true }

def exampleProps (pages : List Page) (startAtId : Option String) : Props :=
  { queryResult := successQuery pages, griftTotal := JsNumber.ofInt 100,
    selectedEntryFromSearch := none, startAtId := startAtId }

/-- Two pages: `[a]` then `[b, c]`. -/
def twoPages : List Page :=
  [{ entries := [entryA], hasPrev := true }, { entries := [entryB, entryC], hasPrev := true }]

/-- Two pages of one entry each: `[a]` then `[b]`. -/
def singletonPages : List Page :=
  [{ entries := [entryA], hasPrev := false }, { entries := [entryB], hasPrev := false }]

/-- A page `[a]` followed by a page without entries. -/
def emptyLastPage : List Page :=
  [{ entries := [entryA], hasPrev := false }, { entries := [], hasPrev := false }]

/-- A query result whose `isLoading` and `isError` flags are both set. -/
def loadingErrorProps : Props :=
  { queryResult :=
      { data := none, hasNextPage := false, isFetching := true, isLoading := true,
        isError := true, isSuccess := false }
    griftTotal := JsNumber.ofInt 100, selectedEntryFromSearch := none, startAtId := none }

/-- A query result with `isError` set and `isLoading` clear. -/
def errorProps : Props :=
  { queryResult :=
      { data := none, hasNextPage := false, isFetching := false, isLoading := false,
        isError := true, isSuccess := false }
    griftTotal := JsNumber.ofInt 100, selectedEntryFromSearch := none, startAtId := none }

/-- Three entries whose amounts are `2^53`, `1` and `1`, on one page. -/
def largeAmountPages : List Page :=
  [{ entries :=
      [{ id := "x", scamTotal := some (JsNumber.ofInt (2 ^ 53)) },
       { id := "y", scamTotal := some (JsNumber.ofInt 1) },
       { id := "z", scamTotal := some (JsNumber.ofInt 1) }]
     hasPrev := false }]

/-! ## Arithmetic of doubles -/

theorem JsNumber.shiftCount_pow_le (w fuel n : Nat) (hn : n ≠ 0) :
    2 ^ (w * JsNumber.shiftCount w fuel n) ≤ n := by
  induction fuel generalizing n with
  | zero =>
    simp only [JsNumber.shiftCount, Nat.mul_zero, Nat.pow_zero]
    omega
  | succ fuel ih =>
    unfold JsNumber.shiftCount
    by_cases h : n < 2 ^ w
    · simp only [h, if_true, Nat.mul_zero, Nat.pow_zero]
      omega
    · simp only [h, if_false]
      have hle : 2 ^ w ≤ n := Nat.le_of_not_lt h
      have hpos : 0 < 2 ^ w := Nat.two_pow_pos w
      have hdiv : n / 2 ^ w ≠ 0 := by
        have := (Nat.le_div_iff_mul_le hpos).2 (by simpa using hle : 1 * 2 ^ w ≤ n)
        omega
      have h2 := ih (n / 2 ^ w) hdiv
      have h3 := (Nat.le_div_iff_mul_le hpos).1 h2
      rw [Nat.mul_add, Nat.mul_one, Nat.pow_add]
      exact h3

theorem JsNumber.shiftCount_div_lt (w fuel n : Nat) (h : n < 2 ^ (w * (fuel + 1))) :
    n / 2 ^ (w * JsNumber.shiftCount w fuel n) < 2 ^ w := by
  induction fuel generalizing n with
  | zero => simpa [JsNumber.shiftCount] using h
  | succ fuel ih =>
    unfold JsNumber.shiftCount
    by_cases hlt : n < 2 ^ w
    · simp [hlt]
    · simp only [hlt, if_false]
      have hpos : 0 < 2 ^ w := Nat.two_pow_pos w
      have h2 : n / 2 ^ w < 2 ^ (w * (fuel + 1)) := by
        apply Nat.div_lt_of_lt_mul
        rw [← Nat.pow_add]
        have : w + w * (fuel + 1) = w * (fuel + 1 + 1) := by ring
        rw [this]
        exact h
      have h3 := ih (n / 2 ^ w) h2
      rw [Nat.mul_add, Nat.mul_one, Nat.pow_add, Nat.mul_comm (2 ^ _) (2 ^ w),
        ← Nat.div_div_eq_div_mul]
      exact h3

theorem JsNumber.lt_pow_bitLength (n : Nat) : n < 2 ^ JsNumber.bitLength n := by
  have hfuel : n < 2 ^ (64 * (n + 1)) := by
    have h1 : n < 2 ^ n := Nat.lt_two_pow n
    exact Nat.lt_of_lt_of_le h1 (Nat.pow_le_pow_right (by decide) (by omega))
  have hm := JsNumber.shiftCount_div_lt 64 n n hfuel
  have hpos : 0 < 2 ^ (64 * JsNumber.shiftCount 64 n n) := Nat.two_pow_pos _
  unfold JsNumber.bitLength
  simp only []
  by_cases h0 : n / 2 ^ (64 * JsNumber.shiftCount 64 n n) = 0
  · simp only [h0, if_true, Nat.add_zero]
    exact (Nat.div_eq_zero_iff hpos).1 h0
  · simp only [h0, if_false]
    have hd := JsNumber.shiftCount_div_lt 1 64 (n / 2 ^ (64 * JsNumber.shiftCount 64 n n))
      (Nat.lt_of_lt_of_le hm (Nat.pow_le_pow_right (by decide) (by decide)))
    simp only [Nat.one_mul, Nat.pow_one] at hd
    have hm2 : n / 2 ^ (64 * JsNumber.shiftCount 64 n n)
        < 2 ^ (JsNumber.shiftCount 1 64 (n / 2 ^ (64 * JsNumber.shiftCount 64 n n)) + 1) := by
      have := (Nat.div_lt_iff_lt_mul (Nat.two_pow_pos _)).1 hd
      rw [Nat.pow_succ]
      omega
    have := (Nat.div_lt_iff_lt_mul hpos).1 hm2
    rw [Nat.pow_add, Nat.mul_comm]
    exact this

theorem JsNumber.bitLength_le (n k : Nat) (h : n < 2 ^ k) : JsNumber.bitLength n ≤ k := by
  by_cases hn : n = 0
  · subst hn
    simp [JsNumber.bitLength, JsNumber.shiftCount]
  · have hc := JsNumber.shiftCount_pow_le 64 n n hn
    have hpos : 0 < 2 ^ (64 * JsNumber.shiftCount 64 n n) := Nat.two_pow_pos _
    have hm0 : n / 2 ^ (64 * JsNumber.shiftCount 64 n n) ≠ 0 := by
      have := (Nat.le_div_iff_mul_le hpos).2
        (by simpa using hc : 1 * 2 ^ (64 * JsNumber.shiftCount 64 n n) ≤ n)
      omega
    have hd := JsNumber.shiftCount_pow_le 1 64 _ hm0
    simp only [Nat.one_mul] at hd
    have h3 := (Nat.le_div_iff_mul_le hpos).1 hd
    rw [← Nat.pow_add] at h3
    have h4 : 2 ^ (JsNumber.shiftCount 1 64 (n / 2 ^ (64 * JsNumber.shiftCount 64 n n))
        + 64 * JsNumber.shiftCount 64 n n) < 2 ^ k := Nat.lt_of_le_of_lt h3 h
    have h5 := (Nat.pow_lt_pow_iff_right (by decide : 1 < 2)).1 h4
    unfold JsNumber.bitLength
    simp only [hm0, if_false]
    omega

theorem JsNumber.roundNat_of_dvd (n : Nat) (h : 2 ^ JsNumber.dropBits n ∣ n) :
    JsNumber.roundNat n = n := by
  have hr : n % 2 ^ JsNumber.dropBits n = 0 := Nat.mod_eq_zero_of_dvd h
  have hpos : 0 < 2 ^ JsNumber.dropBits n := Nat.two_pow_pos _
  unfold JsNumber.roundNat
  simp only [hr, Nat.mul_zero]
  have h1 : ¬ (2 ^ JsNumber.dropBits n < 0 ∨
      (0 = 2 ^ JsNumber.dropBits n ∧ n / 2 ^ JsNumber.dropBits n % 2 = 1)) := by
    rintro (h | ⟨h, _⟩) <;> omega
  rw [if_neg h1]
  exact Nat.div_mul_cancel h

theorem JsNumber.dropBits_le (n t : Nat) (h : n < 2 ^ (53 + t)) : JsNumber.dropBits n ≤ t := by
  have := JsNumber.bitLength_le n _ h
  unfold JsNumber.dropBits
  omega

theorem JsNumber.lt_pow_dropBits (n : Nat) : n < 2 ^ (53 + JsNumber.dropBits n) := by
  have h1 := JsNumber.lt_pow_bitLength n
  have h2 : JsNumber.bitLength n ≤ 53 + JsNumber.dropBits n := by
    unfold JsNumber.dropBits
    omega
  exact Nat.lt_of_lt_of_le h1 (Nat.pow_le_pow_right (by decide) h2)

theorem JsNumber.dvd_mul_pow (q s : Nat) (hq : q ≤ 2 ^ 53) :
    2 ^ JsNumber.dropBits (q * 2 ^ s) ∣ q * 2 ^ s := by
  rcases Nat.lt_or_eq_of_le hq with hlt | heq
  · have hm : q * 2 ^ s < 2 ^ (53 + s) := by
      rw [Nat.pow_add]
      exact Nat.mul_lt_mul_of_pos_right hlt (Nat.two_pow_pos _)
    have hd := JsNumber.dropBits_le _ s hm
    exact Dvd.dvd.mul_left (Nat.pow_dvd_pow 2 hd) q
  · have hm : q * 2 ^ s < 2 ^ (53 + (s + 1)) := by
      rw [heq, ← Nat.pow_add]
      exact Nat.pow_lt_pow_right (by decide) (by omega)
    have hd := JsNumber.dropBits_le _ (s + 1) hm
    rw [heq, ← Nat.pow_add] at hd ⊢
    exact Nat.pow_dvd_pow 2 (by omega)

theorem JsNumber.roundNat_idem (n : Nat) :
    JsNumber.roundNat (JsNumber.roundNat n) = JsNumber.roundNat n := by
  apply JsNumber.roundNat_of_dvd
  have hq : n / 2 ^ JsNumber.dropBits n < 2 ^ 53 := by
    apply Nat.div_lt_of_lt_mul
    have := JsNumber.lt_pow_dropBits n
    rw [Nat.pow_add, Nat.mul_comm] at this
    exact this
  unfold JsNumber.roundNat
  simp only []
  apply JsNumber.dvd_mul_pow
  split_ifs <;> omega

theorem JsNumber.ofExact_isDouble (k : Int) : (JsNumber.ofExact k).isDouble := by
  unfold JsNumber.ofExact
  simp only []
  split_ifs with h1 h2
  · trivial
  · refine ⟨?_, ?_⟩
    · simpa using JsNumber.roundNat_idem k.natAbs
    · simpa using h1
  · refine ⟨?_, ?_⟩
    · simpa using JsNumber.roundNat_idem k.natAbs
    · simpa using h1

theorem JsNumber.add_isDouble (x y : JsNumber) : (x.add y).isDouble := by
  cases x <;> cases y <;> simp only [JsNumber.add] <;>
    first
      | exact JsNumber.ofExact_isDouble _
      | trivial
      | (split_ifs <;> trivial)

theorem JsNumber.ofExact_of_isDouble (k : Int) (h : (JsNumber.finite k).isDouble) :
    JsNumber.ofExact k = JsNumber.finite k := by
  obtain ⟨h1, h2⟩ := h
  unfold JsNumber.ofExact
  simp only [h1]
  rw [if_neg (by omega)]
  congr 1
  split_ifs <;> omega

theorem JsNumber.add_zero_of_isDouble (x : JsNumber) (h : x.isDouble) :
    x.add JsNumber.zero = x := by
  cases x with
  | nan => rfl
  | infinity a => rfl
  | finite k =>
    simp only [JsNumber.add, JsNumber.zero, Int.add_zero]
    exact JsNumber.ofExact_of_isDouble k h

theorem JsNumber.ofInt_isDouble (n : Int) (h : n.natAbs ≤ 2 ^ 53) :
    (JsNumber.ofInt n).isDouble := by
  have habs : (n * (JsNumber.unitsPerOne : Int)).natAbs = n.natAbs * 2 ^ 1074 := by
    rw [Int.natAbs_mul, Int.natAbs_ofNat]
    rfl
  refine ⟨?_, ?_⟩
  · rw [habs]
    exact JsNumber.roundNat_of_dvd _ (JsNumber.dvd_mul_pow _ _ h)
  · rw [habs]
    have h1 : n.natAbs * 2 ^ 1074 ≤ 2 ^ 53 * 2 ^ 1074 := Nat.mul_le_mul_right _ h
    have h2 : 2 ^ 53 * 2 ^ 1074 < JsNumber.overflowUnits := by
      rw [← Nat.pow_add]
      exact Nat.pow_lt_pow_right (by decide) (by decide)
    exact Nat.lt_of_le_of_lt h1 h2

theorem JsNumber.add_ofInt (a b : Int) (h : (a + b).natAbs ≤ 2 ^ 53) :
    (JsNumber.ofInt a).add (JsNumber.ofInt b) = JsNumber.ofInt (a + b) := by
  have h1 := JsNumber.ofExact_of_isDouble _ (JsNumber.ofInt_isDouble (a + b) h)
  simp only [JsNumber.ofInt, JsNumber.add] at h1 ⊢
  rw [← Int.add_mul]
  exact h1

theorem JsNumber.zero_isDouble : JsNumber.zero.isDouble :=
  ⟨by decide, by decide⟩

theorem sumFrom_isDouble (a : JsNumber) (xs : List JsNumber) (h : a.isDouble) :
    (sumFrom a xs).isDouble := by
  induction xs generalizing a with
  | nil => exact h
  | cons x xs ih => exact ih _ (JsNumber.add_isDouble a x)

/-- Integers add exactly as long as every partial sum stays within `2^53`. -/
theorem sumFrom_ofInt (s : Int) (amounts : List Int)
    (h : ∀ j, j ≤ amounts.length → (s + (amounts.take j).sum).natAbs ≤ 2 ^ 53) :
    sumFrom (JsNumber.ofInt s) (amounts.map JsNumber.ofInt)
      = JsNumber.ofInt (s + amounts.sum) := by
  induction amounts generalizing s with
  | nil => simp [sumFrom]
  | cons x xs ih =>
    have h1 : (s + x).natAbs ≤ 2 ^ 53 := by
      have := h 1 (by simp)
      simpa using this
    have h2 : ∀ j, j ≤ xs.length → ((s + x) + (xs.take j).sum).natAbs ≤ 2 ^ 53 := by
      intro j hj
      have := h (j + 1) (by simpa using hj)
      simpa [List.take_succ_cons, add_assoc] using this
    have ih2 := ih (s + x) h2
    simp only [sumFrom, List.map_cons, List.foldl_cons] at ih2 ⊢
    rw [JsNumber.add_ofInt s x h1, ih2]
    simp [add_assoc]

/-! ## The running total threaded through the two `map` calls -/

theorem runningSums_length (a : JsNumber) (es : List Entry) :
    (runningSums a es).length = es.length := by
  induction es generalizing a with
  | nil => rfl
  | cons e es ih => simp [runningSums, ih]

theorem runningSums_append (a : JsNumber) (xs ys : List Entry) :
    runningSums a (xs ++ ys)
      = runningSums a xs ++ runningSums (sumFrom a (xs.map contribution)) ys := by
  induction xs generalizing a with
  | nil => rfl
  | cons x xs ih =>
    rw [List.cons_append, runningSums, ih]
    rfl

theorem runningSums_getElem? (a : JsNumber) (es : List Entry) (k : Nat) (hk : k < es.length) :
    (runningSums a es)[k]? = some (sumFrom a ((es.take (k + 1)).map contribution)) := by
  induction es generalizing a k with
  | nil => simp at hk
  | cons e es ih =>
    cases k with
    | zero => simp [runningSums, sumFrom]
    | succ k =>
      have hk2 : k < es.length := by simpa using hk
      simp only [runningSums, List.getElem?_cons_succ, ih _ k hk2]
      rfl

/-- Adding the amount only when it is truthy is adding the contribution. -/
theorem total_update (a : JsNumber) (e : Entry) (ha : a.isDouble) :
    (match e.scamTotal with
      | none => a
      | some scamTotal => if scamTotal.truthy then a.add scamTotal else a)
      = a.add (contribution e) := by
  have h0 := JsNumber.add_zero_of_isDouble a ha
  rcases e with ⟨id, _ | v⟩
  · exact h0.symm
  · cases v with
    | nan => exact h0.symm
    | infinity neg => rfl
    | finite k =>
      by_cases hk : k = 0
      · subst hk
        exact h0.symm
      · simp [JsNumber.truthy, contribution, hk]

theorem renderEntry_entry (props : Props) (hooks : Hooks) (pageInd : Nat) (isLastPage : Bool)
    (n : Nat) (e : Entry) (i : Nat) (a : JsNumber) :
    (renderEntry props hooks pageInd isLastPage n e i a).1.element.entry = e := by
  unfold renderEntry
  simp only []
  split_ifs <;> rfl

/-- The update of `runningScamTotal` in the callback adds the contribution. -/
theorem renderEntry_total (props : Props) (hooks : Hooks) (pageInd : Nat) (isLastPage : Bool)
    (n : Nat) (e : Entry) (i : Nat) (a : JsNumber) (ha : a.isDouble) :
    (renderEntry props hooks pageInd isLastPage n e i a).2 = a.add (contribution e) ∧
    (renderEntry props hooks pageInd isLastPage n e i a).1.element.runningScamTotal
      = a.add (contribution e) := by
  have hu := total_update a e ha
  unfold renderEntry
  simp only []
  split_ifs <;> exact ⟨hu, hu⟩

theorem page_items_entries (props : Props) (hooks : Hooks) (pageInd : Nat) (isLastPage : Bool)
    (n : Nat) (es : List Entry) (i : Nat) (a : JsNumber) :
    (itemElements (mapIdxAccum (renderEntry props hooks pageInd isLastPage n) es i a).1).map
      EntryElement.entry = es := by
  induction es generalizing i a with
  | nil => rfl
  | cons e es ih =>
    have h := renderEntry_entry props hooks pageInd isLastPage n e i a
    have g := ih (i + 1) (renderEntry props hooks pageInd isLastPage n e i a).2
    simp only [itemElements] at g ⊢
    simp only [mapIdxAccum, List.map_cons, h, g]

theorem page_items_spec (props : Props) (hooks : Hooks) (pageInd : Nat) (isLastPage : Bool)
    (n : Nat) (es : List Entry) (i : Nat) (a : JsNumber) (ha : a.isDouble) :
    (mapIdxAccum (renderEntry props hooks pageInd isLastPage n) es i a).2
      = sumFrom a (es.map contribution) ∧
    (itemElements (mapIdxAccum (renderEntry props hooks pageInd isLastPage n) es i a).1).map
      EntryElement.runningScamTotal = runningSums a es := by
  induction es generalizing i a with
  | nil => exact ⟨rfl, rfl⟩
  | cons e es ih =>
    obtain ⟨h1, h2⟩ := renderEntry_total props hooks pageInd isLastPage n e i a ha
    obtain ⟨g1, g2⟩ := ih (i + 1) (a.add (contribution e)) (JsNumber.add_isDouble _ _)
    simp only [itemElements] at g2 ⊢
    simp only [mapIdxAccum, h1, g1, List.map_cons, h2, g2, runningSums]
    constructor <;> first | rfl | trivial

theorem fragments_entries (props : Props) (hooks : Hooks) (n : Nat) (ps : List Page)
    (i : Nat) (a : JsNumber) :
    (fragmentElements (mapIdxAccum (renderPage props hooks n) ps i a).1).map
      EntryElement.entry = displayOrder ps := by
  induction ps generalizing i a with
  | nil => rfl
  | cons p ps ih =>
    have h := page_items_entries props hooks i
      (((i : Int) == (n : Int) - 1)) p.entries.length p.entries 0 a
    have g := ih (i + 1) (renderPage props hooks n p i a).2
    simp only [itemElements, fragmentElements, displayOrder] at h g ⊢
    simp only [mapIdxAccum, List.flatMap_cons, List.map_append, g]
    simp only [renderPage, h]

theorem fragments_spec (props : Props) (hooks : Hooks) (n : Nat) (ps : List Page)
    (i : Nat) (a : JsNumber) (ha : a.isDouble) :
    (mapIdxAccum (renderPage props hooks n) ps i a).2
      = sumFrom a ((displayOrder ps).map contribution) ∧
    (fragmentElements (mapIdxAccum (renderPage props hooks n) ps i a).1).map
      EntryElement.runningScamTotal = runningSums a (displayOrder ps) := by
  induction ps generalizing i a with
  | nil => exact ⟨rfl, rfl⟩
  | cons p ps ih =>
    obtain ⟨h1, h2⟩ := page_items_spec props hooks i
      (((i : Int) == (n : Int) - 1)) p.entries.length p.entries 0 a ha
    obtain ⟨g1, g2⟩ := ih (i + 1) (sumFrom a (p.entries.map contribution))
      (sumFrom_isDouble _ _ ha)
    simp only [itemElements, fragmentElements, displayOrder] at h2 g1 g2 ⊢
    simp only [mapIdxAccum, renderPage, h1, g1, List.flatMap_cons, List.map_append, h2,
      g2, runningSums_append]
    simp [sumFrom, List.foldl_append]

/-! ## When `renderEntries` returns -/

/-- With `data` defined and either a first page or no `startAtId`, the lookup
`data.pages[0].entries[0]` is not reached or succeeds, and `renderEntries`
returns the fragment below. -/
theorem renderEntries_eq (props : Props) (hooks : Hooks) (d : InfiniteData)
    (hd : props.queryResult.data = some d)
    (hp : d.pages ≠ [] ∨ truthy props.startAtId = false) :
    renderEntries props hooks = Except.ok
      { goToTop := shouldRenderGoToTop props
        customEntryHead :=
          if truthy props.startAtId then some (d.pages[0]?.bind fun p => p.entries[0]?)
          else none
        smallTopMargin := shouldRenderGoToTop props
        pages := (mapIdxAccum (renderPage props hooks d.pages.length) d.pages 0
          JsNumber.zero).1
        loader := props.queryResult.hasNextPage } := by
  unfold renderEntries
  simp only [hd]
  rcases hp with hp | hp
  · obtain ⟨p, ps, hps⟩ := List.exists_cons_of_ne_nil hp
    by_cases hs : truthy props.startAtId = true <;> simp [hs, hps]
  · simp [hp]

/-- With `data` defined, no page and a `startAtId`, `renderEntries` throws. -/
theorem renderEntries_throws (props : Props) (hooks : Hooks) (d : InfiniteData)
    (hd : props.queryResult.data = some d) (hp : d.pages = [])
    (hs : truthy props.startAtId = true) :
    renderEntries props hooks
      = Except.error (RenderError.typeError "data.pages[0] is undefined") := by
  unfold renderEntries
  simp [hd, hp, hs]

theorem displayOrder_ne_nil (ps : List Page) (h : displayOrder ps ≠ []) : ps ≠ [] := by
  intro hps
  exact h (by simp [hps, displayOrder])

/-- The `Entry` elements returned by `renderEntries` are the entries of the
pages in display order, and their running totals are the running sums. -/
theorem renderEntries_elements (props : Props) (hooks : Hooks) (d : InfiniteData)
    (r : RenderedEntries) (hd : props.queryResult.data = some d)
    (hr : renderEntries props hooks = Except.ok r) :
    r.entryElements.map EntryElement.entry = displayOrder d.pages ∧
    r.entryElements.map EntryElement.runningScamTotal
      = runningSums JsNumber.zero (displayOrder d.pages) := by
  by_cases hp : d.pages ≠ [] ∨ truthy props.startAtId = false
  · rw [renderEntries_eq props hooks d hd hp] at hr
    cases hr
    exact ⟨fragments_entries props hooks d.pages.length d.pages 0 JsNumber.zero,
      (fragments_spec props hooks d.pages.length d.pages 0 JsNumber.zero
        JsNumber.zero_isDouble).2⟩
  · have hp1 : d.pages = [] := by
      by_contra h
      exact hp (Or.inl h)
    have hs : truthy props.startAtId = true := by
      cases hs : truthy props.startAtId
      · exact absurd (Or.inr hs) hp
      · rfl
    rw [renderEntries_throws props hooks d hd hp1 hs] at hr
    cases hr

/-! ## Indexing into the result of `map` -/

theorem mapIdxAccum_length {α β σ : Type} (f : α → Nat → σ → β × σ) (xs : List α)
    (i : Nat) (s : σ) : (mapIdxAccum f xs i s).1.length = xs.length := by
  induction xs generalizing i s with
  | nil => rfl
  | cons x xs ih => simp [mapIdxAccum, ih]

/-- The `j`-th result of `map` is the callback applied to the `j`-th element
with index `i + j` (and the state reached by then). -/
theorem mapIdxAccum_getElem? {α β σ : Type} (f : α → Nat → σ → β × σ) (xs : List α)
    (i : Nat) (s : σ) (j : Nat) (x : α) (hx : xs[j]? = some x) :
    ∃ t : σ, (mapIdxAccum f xs i s).1[j]? = some (f x (i + j) t).1 := by
  induction xs generalizing i s j with
  | nil => simp at hx
  | cons y ys ih =>
    cases j with
    | zero =>
      simp only [List.getElem?_cons_zero, Option.some.injEq] at hx
      exact ⟨s, by simp [mapIdxAccum, hx]⟩
    | succ j =>
      simp only [List.getElem?_cons_succ] at hx
      obtain ⟨t, ht⟩ := ih (i + 1) (f y i s).2 j hx
      refine ⟨t, ?_⟩
      simp only [mapIdxAccum, List.getElem?_cons_succ, ht]
      congr 3
      omega

/-! ## Class names -/

theorem renderEntry_parityClass (props : Props) (hooks : Hooks) (pageInd : Nat)
    (isLastPage : Bool) (n : Nat) (e : Entry) (i : Nat) (a : JsNumber) :
    parityClass (renderEntry props hooks pageInd isLastPage n e i a).1.element.className
      = if i % 2 = 0 then "even" else "odd" := by
  have h1 : parityClass "even" = "even" := by decide
  have h2 : parityClass "odd" = "odd" := by decide
  have h3 : parityClass ("even" ++ " first") = "even" := by decide
  unfold renderEntry
  simp only []
  by_cases hi : i % 2 = 0
  · split_ifs <;> simp_all [EntryItem.element]
  · have hi0 : i ≠ 0 := by
      intro h
      simp [h] at hi
    split_ifs <;> simp_all [EntryItem.element]

/-! ## Where the scroll sentinel goes -/

theorem renderEntry_leaves (props : Props) (hooks : Hooks) (pageInd : Nat)
    (isLastPage : Bool) (n : Nat) (e : Entry) (i : Nat) (a : JsNumber) :
    (renderEntry props hooks pageInd isLastPage n e i a).1.leaves =
      if isLastPage = true ∧ i + 1 = n then
        [Leaf.sentinel (renderScrollSentinel props.queryResult.isFetching),
         Leaf.entry (renderEntry props hooks pageInd isLastPage n e i a).1.element]
      else [Leaf.entry (renderEntry props hooks pageInd isLastPage n e i a).1.element] := by
  have hiff : ((i : Int) = (n : Int) - 1) ↔ i + 1 = n := by omega
  unfold renderEntry
  simp only []
  cases isLastPage
  · simp [EntryItem.leaves, EntryItem.element]
  · by_cases hn : i + 1 = n
    · have h2 : (i : Int) = (n : Int) - 1 := hiff.2 hn
      simp [h2, hn, EntryItem.leaves, EntryItem.element]
    · have h2 : ¬ ((i : Int) = (n : Int) - 1) := fun hh => hn (hiff.1 hh)
      simp [h2, hn, EntryItem.leaves, EntryItem.element]

theorem sentinelBeforeLast_cons (s : ScrollSentinel) (e : EntryElement)
    (es : List EntryElement) (h : es ≠ []) :
    sentinelBeforeLast s (e :: es) = Leaf.entry e :: sentinelBeforeLast s es := by
  cases es with
  | nil => exact absurd rfl h
  | cons e2 es => rfl

theorem sentinelBeforeLast_append (s : ScrollSentinel) (xs ys : List EntryElement)
    (h : ys ≠ []) :
    sentinelBeforeLast s (xs ++ ys) = xs.map Leaf.entry ++ sentinelBeforeLast s ys := by
  induction xs with
  | nil => rfl
  | cons x xs ih =>
    have hne : xs ++ ys ≠ [] := by simp [h]
    rw [List.cons_append, sentinelBeforeLast_cons s x _ hne, ih]
    rfl

/-- Closed form: every element but the last as a plain leaf, then the
sentinel, then the last element. -/
theorem sentinelBeforeLast_eq (s : ScrollSentinel) (xs : List EntryElement) (h : xs ≠ []) :
    ∃ el, xs.getLast? = some el ∧
      sentinelBeforeLast s xs = xs.dropLast.map Leaf.entry ++ [Leaf.sentinel s, Leaf.entry el] := by
  induction xs with
  | nil => exact absurd rfl h
  | cons x xs ih =>
    cases xs with
    | nil => exact ⟨x, rfl, rfl⟩
    | cons y ys =>
      obtain ⟨el, h1, h2⟩ := ih (by simp)
      refine ⟨el, ?_, ?_⟩
      · rw [List.getLast?_cons_cons]
        exact h1
      · rw [sentinelBeforeLast_cons s x _ (by simp), h2]
        simp

theorem page_items_leaves (props : Props) (hooks : Hooks) (pageInd : Nat) (isLastPage : Bool)
    (n : Nat) (es : List Entry) (i : Nat) (a : JsNumber) (hn : i + es.length = n) :
    (mapIdxAccum (renderEntry props hooks pageInd isLastPage n) es i a).1.flatMap EntryItem.leaves
      = if isLastPage = true then
          sentinelBeforeLast (renderScrollSentinel props.queryResult.isFetching)
            (itemElements (mapIdxAccum (renderEntry props hooks pageInd isLastPage n) es i a).1)
        else
          (itemElements (mapIdxAccum (renderEntry props hooks pageInd isLastPage n) es i a).1).map
            Leaf.entry := by
  induction es generalizing i a with
  | nil => cases isLastPage <;> simp [mapIdxAccum, itemElements, sentinelBeforeLast]
  | cons e es ih =>
    have hn2 : (i + 1) + es.length = n := by
      simp only [List.length_cons] at hn
      omega
    have ih2 := ih (i + 1) (renderEntry props hooks pageInd isLastPage n e i a).2 hn2
    simp only [mapIdxAccum, List.flatMap_cons, ih2, renderEntry_leaves, itemElements,
      List.map_cons]
    cases isLastPage with
    | false => simp
    | true =>
      cases es with
      | nil =>
        have h1 : i + 1 = n := by simpa using hn
        simp [h1, mapIdxAccum, sentinelBeforeLast]
      | cons e2 es2 =>
        have h1 : ¬ (i + 1 = n) := by
          simp only [List.length_cons] at hn
          omega
        simp [h1, mapIdxAccum, sentinelBeforeLast]

theorem displayOrder_ne_nil_of_getLast? (ps : List Page) (last : Page)
    (h : ps.getLast? = some last) (hl : last.entries ≠ []) : displayOrder ps ≠ [] := by
  have hmem : last ∈ ps := List.mem_of_getLast?_eq_some h
  intro hnil
  simp only [displayOrder, List.flatMap_eq_nil_iff] at hnil
  exact hl (hnil last hmem)

/-- A page that is not the last one carries no sentinel. -/
theorem renderPage_leaves_inner (props : Props) (hooks : Hooks) (n : Nat) (p : Page)
    (i : Nat) (a : JsNumber) (hi : i + 1 ≠ n) :
    (renderPage props hooks n p i a).1.children.flatMap EntryItem.leaves
      = ((renderPage props hooks n p i a).1.children.map EntryItem.element).map Leaf.entry := by
  have hlast : ((i : Int) == (n : Int) - 1) = false := by
    have : ¬ ((i : Int) = (n : Int) - 1) := by omega
    simp [this]
  simp only [renderPage, hlast]
  have h := page_items_leaves props hooks i false p.entries.length p.entries 0 a (by simp)
  simpa [itemElements] using h

/-- The last page carries the sentinel before its last element. -/
theorem renderPage_leaves_last (props : Props) (hooks : Hooks) (n : Nat) (p : Page)
    (i : Nat) (a : JsNumber) (hi : i + 1 = n) :
    (renderPage props hooks n p i a).1.children.flatMap EntryItem.leaves
      = sentinelBeforeLast (renderScrollSentinel props.queryResult.isFetching)
          ((renderPage props hooks n p i a).1.children.map EntryItem.element) := by
  have hlast : ((i : Int) == (n : Int) - 1) = true := by
    have : (i : Int) = (n : Int) - 1 := by omega
    simp [this]
  simp only [renderPage, hlast]
  have h := page_items_leaves props hooks i true p.entries.length p.entries 0 a (by simp)
  simpa [itemElements] using h

theorem fragments_leaves_sentinel (props : Props) (hooks : Hooks) (n : Nat) (ps : List Page)
    (i : Nat) (a : JsNumber) (last : Page) (hn : i + ps.length = n)
    (hlast : ps.getLast? = some last) (hne : last.entries ≠ []) :
    fragmentLeaves (mapIdxAccum (renderPage props hooks n) ps i a).1
      = sentinelBeforeLast (renderScrollSentinel props.queryResult.isFetching)
          (fragmentElements (mapIdxAccum (renderPage props hooks n) ps i a).1) := by
  induction ps generalizing i a with
  | nil => simp at hlast
  | cons p ps ih =>
    cases ps with
    | nil =>
      have h1 : i + 1 = n := by simpa using hn
      have h := renderPage_leaves_last props hooks n p i a h1
      simpa [mapIdxAccum, fragmentLeaves, fragmentElements] using h
    | cons p2 ps2 =>
      have h1 : i + 1 ≠ n := by
        simp only [List.length_cons] at hn
        omega
      have hn2 : (i + 1) + (p2 :: ps2).length = n := by
        simp only [List.length_cons] at hn ⊢
        omega
      have hlast2 : (p2 :: ps2).getLast? = some last := by
        rw [List.getLast?_cons_cons] at hlast
        exact hlast
      have ih2 := ih (i + 1) (renderPage props hooks n p i a).2 hn2 hlast2
      have hinner := renderPage_leaves_inner props hooks n p i a h1
      have hrest : fragmentElements
          (mapIdxAccum (renderPage props hooks n) (p2 :: ps2) (i + 1)
            (renderPage props hooks n p i a).2).1 ≠ [] := by
        intro hnil
        have h3 := fragments_entries props hooks n (p2 :: ps2) (i + 1)
          (renderPage props hooks n p i a).2
        rw [hnil] at h3
        exact displayOrder_ne_nil_of_getLast? (p2 :: ps2) last hlast2 hne h3.symm
      have hstep : fragmentLeaves (mapIdxAccum (renderPage props hooks n) (p :: p2 :: ps2) i a).1
          = (renderPage props hooks n p i a).1.children.flatMap EntryItem.leaves ++
            fragmentLeaves (mapIdxAccum (renderPage props hooks n) (p2 :: ps2) (i + 1)
              (renderPage props hooks n p i a).2).1 := by
        simp [mapIdxAccum, fragmentLeaves]
      have hstep2 : fragmentElements
          (mapIdxAccum (renderPage props hooks n) (p :: p2 :: ps2) i a).1
          = (renderPage props hooks n p i a).1.children.map EntryItem.element ++
            fragmentElements (mapIdxAccum (renderPage props hooks n) (p2 :: ps2) (i + 1)
              (renderPage props hooks n p i a).2).1 := by
        simp [mapIdxAccum, fragmentElements]
      rw [hstep, hstep2, hinner, ih2, sentinelBeforeLast_append _ _ _ hrest]

theorem fragments_leaves_plain (props : Props) (hooks : Hooks) (n : Nat) (ps : List Page)
    (i : Nat) (a : JsNumber) (hn : i + ps.length = n)
    (hlast : ∀ last, ps.getLast? = some last → last.entries = []) :
    fragmentLeaves (mapIdxAccum (renderPage props hooks n) ps i a).1
      = (fragmentElements (mapIdxAccum (renderPage props hooks n) ps i a).1).map Leaf.entry := by
  induction ps generalizing i a with
  | nil => simp [mapIdxAccum, fragmentLeaves, fragmentElements]
  | cons p ps ih =>
    cases ps with
    | nil =>
      have hp : p.entries = [] := hlast p rfl
      simp [mapIdxAccum, fragmentLeaves, fragmentElements, renderPage, hp]
    | cons p2 ps2 =>
      have h1 : i + 1 ≠ n := by
        simp only [List.length_cons] at hn
        omega
      have hn2 : (i + 1) + (p2 :: ps2).length = n := by
        simp only [List.length_cons] at hn ⊢
        omega
      have hlast2 : ∀ last, (p2 :: ps2).getLast? = some last → last.entries = [] := by
        intro last h
        apply hlast last
        rw [List.getLast?_cons_cons]
        exact h
      have ih2 := ih (i + 1) (renderPage props hooks n p i a).2 hn2 hlast2
      have hinner := renderPage_leaves_inner props hooks n p i a h1
      have hstep : fragmentLeaves (mapIdxAccum (renderPage props hooks n) (p :: p2 :: ps2) i a).1
          = (renderPage props hooks n p i a).1.children.flatMap EntryItem.leaves ++
            fragmentLeaves (mapIdxAccum (renderPage props hooks n) (p2 :: ps2) (i + 1)
              (renderPage props hooks n p i a).2).1 := by
        simp [mapIdxAccum, fragmentLeaves]
      have hstep2 : fragmentElements
          (mapIdxAccum (renderPage props hooks n) (p :: p2 :: ps2) i a).1
          = (renderPage props hooks n p i a).1.children.map EntryItem.element ++
            fragmentElements (mapIdxAccum (renderPage props hooks n) (p2 :: ps2) (i + 1)
              (renderPage props hooks n p i a).2).1 := by
        simp [mapIdxAccum, fragmentElements]
      rw [hstep, hstep2, hinner, ih2, List.map_append]

/-! ## Running total (C1) -/

/-- C1: for every list of pages and every position `k` in display order,
`renderEntries` returns and the `runningScamTotal` passed to the `k`-th
`Entry` element (which is the element of the `k`-th entry) equals the sum of
the contributions of the entries at positions `0..k` inclusive, added in
display order from `0` with the addition of the language; an entry with no or
a zero `scamTotal` contributes `0`, and nothing is carried over from an
earlier render. When the contributions are integers and every partial sum up
to position `k` has magnitude at most `2^53`, that sum is the exact integer
sum. -/
theorem running_total_at_position (props : Props) (hooks : Hooks) (d : InfiniteData) (k : Nat)
    (hd : props.queryResult.data = some d) (hk : k < (displayOrder d.pages).length) :
    ∃ r el, renderEntries props hooks = Except.ok r ∧
      r.entryElements[k]? = some el ∧
      (displayOrder d.pages)[k]? = some el.entry ∧
      el.runningScamTotal = contributionSum ((displayOrder d.pages).take (k + 1)) ∧
      (∀ amounts : List Int,
        ((displayOrder d.pages).take (k + 1)).map contribution
            = amounts.map JsNumber.ofInt →
        (∀ j, j ≤ amounts.length → ((amounts.take j).sum).natAbs ≤ 2 ^ 53) →
        el.runningScamTotal = JsNumber.ofInt amounts.sum) := by
  have hne : displayOrder d.pages ≠ [] := by
    intro h
    simp [h] at hk
  have hp : d.pages ≠ [] ∨ truthy props.startAtId = false :=
    Or.inl (displayOrder_ne_nil d.pages hne)
  obtain ⟨r, hr⟩ : ∃ r, renderEntries props hooks = Except.ok r :=
    ⟨_, renderEntries_eq props hooks d hd hp⟩
  obtain ⟨h1, h2⟩ := renderEntries_elements props hooks d r hd hr
  have hlen : k < r.entryElements.length := by
    have := congrArg List.length h1
    simp only [List.length_map] at this
    omega
  have htotal : r.entryElements[k].runningScamTotal
      = contributionSum ((displayOrder d.pages).take (k + 1)) := by
    have := congrArg (fun l => l[k]?) h2
    simp only [List.getElem?_map, List.getElem?_eq_getElem hlen, Option.map_some',
      runningSums_getElem? JsNumber.zero _ k hk, Option.some.injEq] at this
    exact this
  refine ⟨r, r.entryElements[k], hr, List.getElem?_eq_getElem hlen, ?_, htotal, ?_⟩
  · have := congrArg (fun l => l[k]?) h1
    simp only [List.getElem?_map, List.getElem?_eq_getElem hlen, Option.map_some'] at this
    exact this.symm
  · intro amounts hamounts hbound
    rw [htotal, contributionSum, hamounts]
    have h0 : JsNumber.zero = JsNumber.ofInt 0 := by
      simp [JsNumber.zero, JsNumber.ofInt]
    rw [h0, sumFrom_ofInt 0 amounts (by simpa using hbound)]
    simp

/-- Witness for C1: the third entry of `[a] ++ [b, c]`, total 5 + 0 + 7. -/
theorem running_total_at_position_witness :
    ∃ r el, renderEntries (exampleProps twoPages none) exampleHooks = Except.ok r ∧
      r.entryElements[2]? = some el ∧
      (displayOrder twoPages)[2]? = some el.entry ∧
      el.runningScamTotal = contributionSum ((displayOrder twoPages).take (2 + 1)) ∧
      (∀ amounts : List Int,
        ((displayOrder twoPages).take (2 + 1)).map contribution
            = amounts.map JsNumber.ofInt →
        (∀ j, j ≤ amounts.length → ((amounts.take j).sum).natAbs ≤ 2 ^ 53) →
        el.runningScamTotal = JsNumber.ofInt amounts.sum) :=
  running_total_at_position (exampleProps twoPages none) exampleHooks { pages := twoPages } 2
    rfl (by decide)

/-- The running totals are computed in double precision: with amounts
`2^53`, `1`, `1` the three totals are `2^53`, `2^53`, `2^53`, because
`2^53 + 1` is not a double and rounds back to `2^53`; with amounts `5`,
none, `7` they are `5`, `5`, `12`. -/
theorem running_totals_in_double_precision :
    (renderEntries (exampleProps largeAmountPages none) exampleHooks).toOption.map
        (fun r => r.entryElements.map EntryElement.runningScamTotal)
      = some [JsNumber.ofInt (2 ^ 53), JsNumber.ofInt (2 ^ 53), JsNumber.ofInt (2 ^ 53)] ∧
    (renderEntries (exampleProps twoPages none) exampleHooks).toOption.map
        (fun r => r.entryElements.map EntryElement.runningScamTotal)
      = some [JsNumber.ofInt 5, JsNumber.ofInt 5, JsNumber.ofInt 12] := by
  decide

/-! ## The rendered entry sequence (C2) -/

/-- With at least one page, or with no `startAtId`, `renderEntries` returns
and the `Entry` elements it produces are exactly the concatenation of the
pages' entry lists in page order and entry order within a page; their number
is the sum of the pages' entry counts. -/
theorem entry_sequence_is_concatenation (props : Props) (hooks : Hooks) (d : InfiniteData)
    (hd : props.queryResult.data = some d)
    (hp : d.pages ≠ [] ∨ truthy props.startAtId = false) :
    ∃ r, renderEntries props hooks = Except.ok r ∧
      r.entryElements.map EntryElement.entry = d.pages.flatMap Page.entries ∧
      r.entryElements.length = (d.pages.map fun p => p.entries.length).sum := by
  obtain ⟨r, hr⟩ : ∃ r, renderEntries props hooks = Except.ok r :=
    ⟨_, renderEntries_eq props hooks d hd hp⟩
  obtain ⟨h1, _⟩ := renderEntries_elements props hooks d r hd hr
  refine ⟨r, hr, h1, ?_⟩
  have := congrArg List.length h1
  simp only [List.length_map, displayOrder, List.length_flatMap] at this
  exact this

/-- C2 at the failing input: a successful, settled query result with zero
pages and a `startAtId`. `renderEntries` throws at `data.pages[0].entries`
and produces no element sequence, where the claim has it produce the empty
sequence; the same result without `startAtId` renders, with zero `Entry`
elements, and `hasPreviousEntries` reads `data.pages[0]` behind a guard and
is false. -/
theorem entry_sequence_zero_pages_throws :
    (exampleProps [] (some "b")).queryResult.isSuccess = true ∧
    (exampleProps [] (some "b")).queryResult.isLoading = false ∧
    (exampleProps [] (some "b")).queryResult.isError = false ∧
    (exampleProps [] (some "b")).queryResult.data = some { pages := [] } ∧
    renderEntries (exampleProps [] (some "b")) exampleHooks
      = Except.error (RenderError.typeError "data.pages[0] is undefined") ∧
    renderBody (exampleProps [] (some "b")) exampleHooks
      = Except.error (RenderError.typeError "data.pages[0] is undefined") ∧
    (renderEntries (exampleProps [] none) exampleHooks).toOption.map
        (fun r => r.entryElements.length) = some 0 ∧
    hasPreviousEntries (exampleProps [] (some "b")).queryResult = false :=
  ⟨rfl, rfl, rfl, rfl, rfl, rfl, rfl, rfl⟩

/-! ## The pagination trigger (C3) -/

/-- C3: the `onChange` handler of the scroll sentinel calls `fetchNextPage`
exactly once when invoked with `inView = true` while `isFetching` is false,
and performs no call otherwise; the call happens if and only if `inView` and
not `isFetching`. -/
theorem sentinel_onChange_fetches_iff (isFetching inView : Bool) :
    (((renderScrollSentinel isFetching).onChange inView).count Effect.fetchNextPage = 1
      ↔ (inView = true ∧ isFetching = false)) ∧
    (((renderScrollSentinel isFetching).onChange inView).count Effect.fetchNextPage = 0
      ↔ (inView = false ∨ isFetching = true)) ∧
    ((renderScrollSentinel isFetching).onChange inView).count Effect.fetchNextPage ≤ 1 := by
  cases isFetching <;> cases inView <;> decide

/-! ## Loading and error states (C4, C5) -/

/-- C4: with `isLoading = true`, `renderBody` returns the `Loader` and nothing
else (its only leaf is the loader: no entry, no error indicator, no go-to-top
control, no scroll sentinel), whatever `isError`, `isSuccess` and `data` are. -/
theorem loading_renders_only_loader (props : Props) (hooks : Hooks)
    (h : props.queryResult.isLoading = true) :
    ∃ body, renderBody props hooks = Except.ok body ∧ body.leaves = [Leaf.loader] := by
  refine ⟨Body.loader, ?_, rfl⟩
  simp [renderBody, h]

/-- Witness for C4: loading with the error flag set and no data. -/
theorem loading_renders_only_loader_witness :
    ∃ body, renderBody loadingErrorProps exampleHooks = Except.ok body ∧
      body.leaves = [Leaf.loader] :=
  loading_renders_only_loader loadingErrorProps exampleHooks rfl

/-- C5: for every query result with `isError = true` (the flags being those of
a query in one state), `renderBody` returns the `Error` indicator and nothing
else: no loader and no entry. -/
theorem error_renders_only_error (props : Props) (hooks : Hooks)
    (hq : props.queryResult.statusDerived = true) (h : props.queryResult.isError = true) :
    ∃ body, renderBody props hooks = Except.ok body ∧ body.leaves = [Leaf.error] := by
  have hl : props.queryResult.isLoading = false := by
    cases hl : props.queryResult.isLoading
    · rfl
    · simp [QueryResult.statusDerived, hl, h] at hq
  refine ⟨Body.error, ?_, rfl⟩
  simp [renderBody, h, hl]

/-- Witness for C5: a query in the error state. -/
theorem error_renders_only_error_witness :
    ∃ body, renderBody errorProps exampleHooks = Except.ok body ∧ body.leaves = [Leaf.error] :=
  error_renders_only_error errorProps exampleHooks rfl rfl

/-! ## The first-page lookup (C10) -/

/-- C10: with `isLoading = false`, `isError = false` and at least one page,
`renderBody` reaches `renderEntries`, which returns whatever `startAtId` is:
`data.pages[0]` is defined, and `CustomEntryHead` is rendered exactly when
`startAtId` is supplied, receiving the first entry of the first page, or an
absent entry when that page has no entries. -/
theorem first_page_lookup_defined (props : Props) (hooks : Hooks) (d : InfiniteData)
    (page : Page) (rest : List Page)
    (hl : props.queryResult.isLoading = false) (he : props.queryResult.isError = false)
    (hd : props.queryResult.data = some d) (hp : d.pages = page :: rest) :
    ∃ r, renderEntries props hooks = Except.ok r ∧
      renderBody props hooks = Except.ok (Body.entries r) ∧
      d.pages[0]? = some page ∧
      r.customEntryHead
        = if truthy props.startAtId then some page.entries.head? else none := by
  have hne : d.pages ≠ [] ∨ truthy props.startAtId = false := Or.inl (by simp [hp])
  have hr := renderEntries_eq props hooks d hd hne
  refine ⟨_, hr, ?_, by simp [hp], ?_⟩
  · simp [renderBody, hl, he, hr, Except.map]
  · have h0 : page.entries[0]? = page.entries.head? := by
      cases page.entries <;> simp
    simp [hp, h0]

/-- Witness for C10: a deep link into a feed whose first page is empty. -/
theorem first_page_lookup_defined_witness :
    ∃ r, renderEntries (exampleProps [{ entries := [], hasPrev := true }] (some "b")) exampleHooks
        = Except.ok r ∧
      renderBody (exampleProps [{ entries := [], hasPrev := true }] (some "b")) exampleHooks
        = Except.ok (Body.entries r) ∧
      (InfiniteData.mk [{ entries := [], hasPrev := true }]).pages[0]?
        = some { entries := [], hasPrev := true } ∧
      r.customEntryHead
        = if truthy (exampleProps [{ entries := [], hasPrev := true }] (some "b")).startAtId
          then some (Page.mk [] true).entries.head? else none :=
  first_page_lookup_defined (exampleProps [{ entries := [], hasPrev := true }] (some "b"))
    exampleHooks { pages := [{ entries := [], hasPrev := true }] }
    { entries := [], hasPrev := true } [] rfl rfl rfl rfl

/-! ## Go-to-top instead of filters (C6) -/

/-- C6: when `startAtId` is supplied (non-empty) and a previous page exists
(the query succeeded, the flags being those of a query in one state, and
`data.pages[0].hasPrev` is true), `Timeline` returns, renders the go-to-top
control and does not render `Filters`. -/
theorem deep_link_go_to_top (props : Props) (hooks : Hooks) (d : InfiniteData)
    (page : Page) (rest : List Page)
    (hq : props.queryResult.statusDerived = true)
    (hs : truthy props.startAtId = true) (hsucc : props.queryResult.isSuccess = true)
    (hd : props.queryResult.data = some d) (hp : d.pages = page :: rest)
    (hprev : page.hasPrev = true) :
    ∃ t, Timeline props hooks = Except.ok t ∧
      t.rendersGoToTop = true ∧ t.rendersFilters = false := by
  have hl : props.queryResult.isLoading = false := by
    cases hl : props.queryResult.isLoading
    · rfl
    · cases he : props.queryResult.isError <;>
        simp [QueryResult.statusDerived, hl, he, hsucc] at hq
  have he : props.queryResult.isError = false := by
    cases he : props.queryResult.isError
    · rfl
    · simp [QueryResult.statusDerived, hl, he, hsucc] at hq
  have hprevE : hasPreviousEntries props.queryResult = true := by
    simp [hasPreviousEntries, hsucc, hd, hp, hprev]
  have hgo : shouldRenderGoToTop props = true := by
    simp [shouldRenderGoToTop, hs, hprevE]
  have hr := renderEntries_eq props hooks d hd (Or.inl (by simp [hp]))
  have ht : ∃ t r, Timeline props hooks = Except.ok t ∧ t.body = Body.entries r ∧
      r.goToTop = true ∧ t.filters = none := by
    simp [Timeline, renderBody, hl, he, hs, hprevE, hr, Except.map, hgo]
  obtain ⟨t, r, ht, hb, hg, hf⟩ := ht
  refine ⟨t, ht, ?_, ?_⟩
  · simp [TimelineElement.rendersGoToTop, hb, Body.leaves, RenderedEntries.leaves, hg,
      Leaf.isGoToTop]
  · simp [TimelineElement.rendersFilters, hf]

/-- Witness for C6: a deep link to entry `b` of a settled feed whose first
page has a previous page. -/
theorem deep_link_go_to_top_witness :
    ∃ t, Timeline (exampleProps twoPages (some "b")) exampleHooks = Except.ok t ∧
      t.rendersGoToTop = true ∧ t.rendersFilters = false :=
  deep_link_go_to_top (exampleProps twoPages (some "b")) exampleHooks { pages := twoPages }
    { entries := [entryA], hasPrev := true } [{ entries := [entryB, entryC], hasPrev := true }]
    rfl (by decide) rfl rfl rfl rfl

/-! ## Placement of the scroll sentinel (C7) -/

theorem displayOrder_getLast? (ps : List Page) (last : Page) (e : Entry)
    (h : ps.getLast? = some last) (he : last.entries.getLast? = some e) :
    (displayOrder ps).getLast? = some e := by
  obtain ⟨ys, hys⟩ := List.getLast?_eq_some_iff.1 h
  obtain ⟨zs, hzs⟩ := List.getLast?_eq_some_iff.1 he
  have : displayOrder ps = (displayOrder ys ++ zs) ++ [e] := by
    simp [displayOrder, hys, hzs, List.flatMap_append]
  rw [this, List.getLast?_concat]

theorem countP_isSentinel_entries (els : List EntryElement) :
    (els.map Leaf.entry).countP Leaf.isSentinel = 0 := by
  induction els with
  | nil => rfl
  | cons e es ih => simp [List.countP_cons, Leaf.isSentinel]

/-- Outside the two `map` calls `renderEntries` places no sentinel. -/
theorem leaves_countP_isSentinel (r : RenderedEntries) :
    r.leaves.countP Leaf.isSentinel = r.entryLeaves.countP Leaf.isSentinel := by
  unfold RenderedEntries.leaves
  cases r.goToTop <;> cases r.loader <;> cases r.customEntryHead <;>
    simp [List.countP_cons, Leaf.isSentinel]

/-- C7, as amended: for every list of pages with a last page, `renderEntries`
returns; when the last page has at least one entry, exactly one scroll
sentinel is rendered, immediately before the `Entry` element of the last
entry of the last page, every other entry being rendered without a sentinel;
when the last page has no entries, no sentinel is rendered. -/
theorem sentinel_before_last_entry (props : Props) (hooks : Hooks) (d : InfiniteData)
    (last : Page) (hd : props.queryResult.data = some d)
    (hlast : d.pages.getLast? = some last) :
    ∃ r, renderEntries props hooks = Except.ok r ∧
      (∀ e, last.entries.getLast? = some e →
        ∃ el, r.entryElements.getLast? = some el ∧ el.entry = e ∧
          r.entryLeaves = r.entryElements.dropLast.map Leaf.entry ++
            [Leaf.sentinel (renderScrollSentinel props.queryResult.isFetching), Leaf.entry el] ∧
          r.leaves.countP Leaf.isSentinel = 1) ∧
      (last.entries = [] → r.leaves.countP Leaf.isSentinel = 0) := by
  have hne : d.pages ≠ [] := by
    intro h
    simp [h] at hlast
  obtain ⟨r, hr⟩ : ∃ r, renderEntries props hooks = Except.ok r :=
    ⟨_, renderEntries_eq props hooks d hd (Or.inl hne)⟩
  have hpages : r.pages = (mapIdxAccum (renderPage props hooks d.pages.length) d.pages 0 JsNumber.zero).1 := by
    rw [renderEntries_eq props hooks d hd (Or.inl hne)] at hr
    cases hr
    rfl
  have hE : r.entryElements = fragmentElements r.pages := rfl
  have hL : r.entryLeaves = fragmentLeaves r.pages := rfl
  obtain ⟨h1, _⟩ := renderEntries_elements props hooks d r hd hr
  refine ⟨r, hr, ?_, ?_⟩
  · intro e he
    have hene : last.entries ≠ [] := by
      intro h
      simp [h] at he
    have hleaves := fragments_leaves_sentinel props hooks d.pages.length d.pages 0 JsNumber.zero last
      (by simp) hlast hene
    rw [← hpages, ← hE, ← hL] at hleaves
    have hels : r.entryElements ≠ [] := by
      intro h
      rw [h] at h1
      exact displayOrder_ne_nil_of_getLast? d.pages last hlast hene h1.symm
    obtain ⟨el, hel, hdecomp⟩ := sentinelBeforeLast_eq
      (renderScrollSentinel props.queryResult.isFetching) r.entryElements hels
    have hentry : el.entry = e := by
      have h2 := congrArg List.getLast? h1
      rw [List.getLast?_map, hel, displayOrder_getLast? d.pages last e hlast he] at h2
      simpa using h2
    refine ⟨el, hel, hentry, hleaves.trans hdecomp, ?_⟩
    rw [leaves_countP_isSentinel, hleaves, hdecomp, List.countP_append,
      countP_isSentinel_entries]
    simp [List.countP_cons, Leaf.isSentinel]
  · intro hnil
    have hleaves := fragments_leaves_plain props hooks d.pages.length d.pages 0 JsNumber.zero (by simp)
      (by
        intro l hl
        rw [hlast] at hl
        cases hl
        exact hnil)
    rw [← hpages, ← hE, ← hL] at hleaves
    rw [leaves_countP_isSentinel, hleaves, countP_isSentinel_entries]

/-- Witness for C7 as amended: two pages, the last one `[b, c]`. -/
theorem sentinel_before_last_entry_witness :
    ∃ r, renderEntries (exampleProps twoPages none) exampleHooks = Except.ok r ∧
      (∀ e, (Page.mk [entryB, entryC] true).entries.getLast? = some e →
        ∃ el, r.entryElements.getLast? = some el ∧ el.entry = e ∧
          r.entryLeaves = r.entryElements.dropLast.map Leaf.entry ++
            [Leaf.sentinel
              (renderScrollSentinel (exampleProps twoPages none).queryResult.isFetching),
             Leaf.entry el] ∧
          r.leaves.countP Leaf.isSentinel = 1) ∧
      ((Page.mk [entryB, entryC] true).entries = [] → r.leaves.countP Leaf.isSentinel = 0) :=
  sentinel_before_last_entry (exampleProps twoPages none) exampleHooks { pages := twoPages }
    { entries := [entryB, entryC], hasPrev := true } rfl rfl

/-- Counterexample to C7 as stated: a non-empty list of pages whose last page
has no entries; the entry `a` is rendered and no scroll sentinel is. -/
theorem empty_last_page_no_sentinel :
    (renderEntries (exampleProps emptyLastPage none) exampleHooks).toOption.map
        (fun r => (r.leaves.countP Leaf.isSentinel, r.leaves.map Leaf.isEntry))
      = some (0, [true]) := by
  decide

/-! ## Parity classes (C8) -/

/-- The first `Entry` element of the document, if any, has class `even`. -/
theorem fragmentElements_head_even (props : Props) (hooks : Hooks) (n : Nat) (ps : List Page)
    (i : Nat) (a : JsNumber) (el : EntryElement)
    (h : (fragmentElements (mapIdxAccum (renderPage props hooks n) ps i a).1).head? = some el) :
    parityClass el.className = "even" := by
  induction ps generalizing i a with
  | nil => simp [mapIdxAccum, fragmentElements] at h
  | cons p ps ih =>
    cases hp : p.entries with
    | nil =>
      have hstep : fragmentElements (mapIdxAccum (renderPage props hooks n) (p :: ps) i a).1
          = fragmentElements (mapIdxAccum (renderPage props hooks n) ps (i + 1)
              (renderPage props hooks n p i a).2).1 := by
        simp [mapIdxAccum, fragmentElements, renderPage, hp]
      rw [hstep] at h
      exact ih _ _ h
    | cons e es =>
      have hstep : (fragmentElements
          (mapIdxAccum (renderPage props hooks n) (p :: ps) i a).1).head?
          = some (renderEntry props hooks i ((i : Int) == (n : Int) - 1) p.entries.length
              e 0 a).1.element := by
        simp [mapIdxAccum, fragmentElements, renderPage, hp]
      rw [hstep] at h
      cases h
      simpa using renderEntry_parityClass props hooks i ((i : Int) == (n : Int) - 1)
        p.entries.length e 0 a

/-- The item rendered for the entry at index `j` of the page at index `p`. -/
theorem rendered_item_at (props : Props) (hooks : Hooks) (n : Nat) (ps : List Page)
    (p j : Nat) (page : Page) (e : Entry) (a : JsNumber)
    (hpage : ps[p]? = some page) (he : page.entries[j]? = some e) :
    ∃ pf item, (mapIdxAccum (renderPage props hooks n) ps 0 a).1[p]? = some pf ∧
      pf.children.length = page.entries.length ∧
      pf.children[j]? = some item ∧ item.element.entry = e ∧
      parityClass item.element.className = (if j % 2 = 0 then "even" else "odd") := by
  obtain ⟨t, ht⟩ := mapIdxAccum_getElem? (renderPage props hooks n) ps 0 a p page hpage
  obtain ⟨u, hu⟩ := mapIdxAccum_getElem? (renderEntry props hooks (0 + p)
    (((0 + p : Nat) : Int) == (n : Int) - 1) page.entries.length) page.entries 0 t j e he
  refine ⟨_, _, ht, ?_, hu, ?_, ?_⟩
  · simp [renderPage, mapIdxAccum_length]
  · exact renderEntry_entry props hooks _ _ _ e _ u
  · simpa using renderEntry_parityClass props hooks (0 + p)
      (((0 + p : Nat) : Int) == (n : Int) - 1) page.entries.length e (0 + j) u

/-- C8, as amended: the parity class of an entry is decided by its index
within its page. For the entry at index `j` of the page at index `p`,
`renderEntries` returns, the item at that place is the element of that entry,
its class is `even` when `j` is even and `odd` otherwise, the next entry of
the same page (if any) receives the other class, and the first displayed
entry is `even`. -/
theorem parity_alternates_within_page (props : Props) (hooks : Hooks) (d : InfiniteData)
    (p j : Nat) (page : Page) (e : Entry)
    (hd : props.queryResult.data = some d) (hpage : d.pages[p]? = some page)
    (he : page.entries[j]? = some e) :
    ∃ r pf item, renderEntries props hooks = Except.ok r ∧
      r.pages[p]? = some pf ∧ pf.children[j]? = some item ∧ item.element.entry = e ∧
      parityClass item.element.className = (if j % 2 = 0 then "even" else "odd") ∧
      (∀ next, pf.children[j + 1]? = some next →
        parityClass next.element.className = (if j % 2 = 0 then "odd" else "even") ∧
        parityClass next.element.className ≠ parityClass item.element.className) ∧
      (∀ el, r.entryElements.head? = some el → parityClass el.className = "even") := by
  have hne : d.pages ≠ [] := by
    intro h
    simp [h] at hpage
  obtain ⟨r, hr⟩ : ∃ r, renderEntries props hooks = Except.ok r :=
    ⟨_, renderEntries_eq props hooks d hd (Or.inl hne)⟩
  have hpages : r.pages = (mapIdxAccum (renderPage props hooks d.pages.length) d.pages 0 JsNumber.zero).1 := by
    rw [renderEntries_eq props hooks d hd (Or.inl hne)] at hr
    cases hr
    rfl
  obtain ⟨pf, item, hpf, hlen, hitem, hentry, hpar⟩ :=
    rendered_item_at props hooks d.pages.length d.pages p j page e JsNumber.zero hpage he
  rw [← hpages] at hpf
  refine ⟨r, pf, item, hr, hpf, hitem, hentry, hpar, ?_, ?_⟩
  · intro next hnext
    have hj : j + 1 < page.entries.length := by
      rw [← hlen]
      exact (List.getElem?_eq_some_iff.1 hnext).1
    obtain ⟨pf2, item2, hpf2, _, hitem2, _, hpar2⟩ :=
      rendered_item_at props hooks d.pages.length d.pages p (j + 1) page page.entries[j + 1] JsNumber.zero
        hpage (List.getElem?_eq_getElem hj)
    rw [← hpages, hpf] at hpf2
    cases hpf2
    rw [hnext] at hitem2
    cases hitem2
    rw [hpar2, hpar]
    have hmod : j % 2 = 0 ∨ j % 2 = 1 := by omega
    rcases hmod with h | h
    · have h2 : (j + 1) % 2 = 1 := by omega
      simp [h, h2]
    · have h2 : (j + 1) % 2 = 0 := by omega
      simp [h, h2]
  · intro el hel
    have hE : r.entryElements = fragmentElements r.pages := rfl
    rw [hE, hpages] at hel
    exact fragmentElements_head_even props hooks d.pages.length d.pages 0 JsNumber.zero el hel

/-- Witness for C8 as amended: the entry `b` at index 0 of the second page. -/
theorem parity_alternates_within_page_witness :
    ∃ r pf item, renderEntries (exampleProps twoPages none) exampleHooks = Except.ok r ∧
      r.pages[1]? = some pf ∧ pf.children[0]? = some item ∧ item.element.entry = entryB ∧
      parityClass item.element.className = (if 0 % 2 = 0 then "even" else "odd") ∧
      (∀ next, pf.children[0 + 1]? = some next →
        parityClass next.element.className = (if 0 % 2 = 0 then "odd" else "even") ∧
        parityClass next.element.className ≠ parityClass item.element.className) ∧
      (∀ el, r.entryElements.head? = some el → parityClass el.className = "even") :=
  parity_alternates_within_page (exampleProps twoPages none) exampleHooks { pages := twoPages }
    1 0 { entries := [entryB, entryC], hasPrev := true } entryB rfl rfl rfl

/-- Counterexample to C8 as stated: two pages of one entry each; the two
entries are adjacent in display order and both receive the class `even`. -/
theorem adjacent_entries_across_pages_both_even :
    (renderEntries (exampleProps singletonPages none) exampleHooks).toOption.map
        (fun r => r.entryElements.map fun el => (el.entry.id, el.className,
          parityClass el.className))
      = some [("a", "even first", "even"), ("b", "even", "even")] := by
  decide

/-! ## Independence from the page split (C9) -/

theorem displayOrder_append (ps qs : List Page) :
    displayOrder (ps ++ qs) = displayOrder ps ++ displayOrder qs := by
  simp [displayOrder, List.flatMap_append]

/-- When `renderEntries` returns for a page list, it returns for every
extension of that list under the same props. -/
theorem renderEntries_withPages_ok (props : Props) (hooks hooks2 : Hooks) (d : InfiniteData)
    (more : List Page) (r : RenderedEntries) (hd : props.queryResult.data = some d)
    (hr : renderEntries props hooks = Except.ok r) :
    ∃ r2, renderEntries (props.withPages (d.pages ++ more)) hooks2 = Except.ok r2 := by
  have hp : (d.pages ++ more ≠ []) ∨ truthy (props.withPages (d.pages ++ more)).startAtId = false := by
    by_cases hne : d.pages = []
    · cases hs : truthy props.startAtId with
      | false => exact Or.inr hs
      | true =>
        rw [renderEntries_throws props hooks d hd hne hs] at hr
        cases hr
    · exact Or.inl (by simp [hne])
  exact ⟨_, renderEntries_eq (props.withPages (d.pages ++ more)) hooks2
    { pages := d.pages ++ more } rfl hp⟩

/-- An element of a prefix keeps its image under `f` in the longer list. -/
theorem getElem?_of_map_eq_append {α β : Type} (f : α → β) (xs ys : List α) (zs : List β)
    (h : ys.map f = xs.map f ++ zs) (k : Nat) (x : α) (hx : xs[k]? = some x) :
    ∃ y, ys[k]? = some y ∧ f y = f x := by
  have hk : k < xs.length := (List.getElem?_eq_some_iff.1 hx).1
  have hk2 : k < ys.length := by
    have := congrArg List.length h
    simp only [List.length_map, List.length_append] at this
    omega
  refine ⟨ys[k], List.getElem?_eq_getElem hk2, ?_⟩
  have h2 := congrArg (fun l => l[k]?) h
  simp only [List.getElem?_map, List.getElem?_eq_getElem hk2, Option.map_some'] at h2
  rw [List.getElem?_append_left (by simpa using hk), List.getElem?_map, hx] at h2
  simpa using h2

/-- C9: the running totals depend only on the flattened entry sequence. For
two page lists with the same concatenated entries the `runningScamTotal`
values of the rendered `Entry` elements coincide (and both renders return
when there is an entry at all); and when further pages are appended, the
render returns again and every entry displayed before keeps its position and
its `runningScamTotal`. -/
theorem running_totals_depend_on_flattening (props1 props2 : Props) (hooks1 hooks2 : Hooks)
    (d1 d2 : InfiniteData)
    (hd1 : props1.queryResult.data = some d1) (hd2 : props2.queryResult.data = some d2) :
    (displayOrder d1.pages = displayOrder d2.pages →
      (∀ r1 r2, renderEntries props1 hooks1 = Except.ok r1 →
        renderEntries props2 hooks2 = Except.ok r2 →
        r1.entryElements.map EntryElement.runningScamTotal
          = r2.entryElements.map EntryElement.runningScamTotal) ∧
      (displayOrder d1.pages ≠ [] →
        ∃ r1 r2, renderEntries props1 hooks1 = Except.ok r1 ∧
          renderEntries props2 hooks2 = Except.ok r2)) ∧
    (∀ (more : List Page) (r1 : RenderedEntries), renderEntries props1 hooks1 = Except.ok r1 →
      ∃ r2, renderEntries (props1.withPages (d1.pages ++ more)) hooks2 = Except.ok r2 ∧
        ∀ (k : Nat) (el : EntryElement), r1.entryElements[k]? = some el →
          ∃ el2 : EntryElement, r2.entryElements[k]? = some el2 ∧ el2.entry = el.entry ∧
            el2.runningScamTotal = el.runningScamTotal) := by
  refine ⟨?_, ?_⟩
  · intro hflat
    refine ⟨?_, ?_⟩
    · intro r1 r2 hr1 hr2
      rw [(renderEntries_elements props1 hooks1 d1 r1 hd1 hr1).2,
        (renderEntries_elements props2 hooks2 d2 r2 hd2 hr2).2, hflat]
    · intro hne
      have hne2 : displayOrder d2.pages ≠ [] := hflat ▸ hne
      exact ⟨_, _, renderEntries_eq props1 hooks1 d1 hd1 (Or.inl (displayOrder_ne_nil _ hne)),
        renderEntries_eq props2 hooks2 d2 hd2 (Or.inl (displayOrder_ne_nil _ hne2))⟩
  · intro more r1 hr1
    obtain ⟨r2, hr2⟩ := renderEntries_withPages_ok props1 hooks1 hooks2 d1 more r1 hd1 hr1
    obtain ⟨e1, t1⟩ := renderEntries_elements props1 hooks1 d1 r1 hd1 hr1
    obtain ⟨e2, t2⟩ := renderEntries_elements (props1.withPages (d1.pages ++ more)) hooks2
      { pages := d1.pages ++ more } r2 rfl hr2
    simp only [displayOrder_append] at e2 t2
    rw [← e1] at e2
    rw [runningSums_append, ← t1] at t2
    refine ⟨r2, hr2, ?_⟩
    intro k el hel
    obtain ⟨y, hy, hye⟩ := getElem?_of_map_eq_append EntryElement.entry
      r1.entryElements r2.entryElements _ e2 k el hel
    obtain ⟨y2, hy2, hyt⟩ := getElem?_of_map_eq_append EntryElement.runningScamTotal
      r1.entryElements r2.entryElements _ t2 k el hel
    rw [hy] at hy2
    cases hy2
    exact ⟨y, hy, hye, hyt⟩

/-- Witness for C9: `[a] ++ [b, c]` against the single page `[a, b, c]`. -/
theorem running_totals_depend_on_flattening_witness :
    (displayOrder twoPages = displayOrder [{ entries := [entryA, entryB, entryC], hasPrev := false }] →
      (∀ r1 r2, renderEntries (exampleProps twoPages none) exampleHooks = Except.ok r1 →
        renderEntries (exampleProps [{ entries := [entryA, entryB, entryC], hasPrev := false }]
          (some "c")) exampleHooks = Except.ok r2 →
        r1.entryElements.map EntryElement.runningScamTotal
          = r2.entryElements.map EntryElement.runningScamTotal) ∧
      (displayOrder twoPages ≠ [] →
        ∃ r1 r2, renderEntries (exampleProps twoPages none) exampleHooks = Except.ok r1 ∧
          renderEntries (exampleProps [{ entries := [entryA, entryB, entryC], hasPrev := false }]
            (some "c")) exampleHooks = Except.ok r2)) ∧
    (∀ (more : List Page) (r1 : RenderedEntries),
      renderEntries (exampleProps twoPages none) exampleHooks = Except.ok r1 →
      ∃ r2, renderEntries ((exampleProps twoPages none).withPages (twoPages ++ more))
          exampleHooks = Except.ok r2 ∧
        ∀ (k : Nat) (el : EntryElement), r1.entryElements[k]? = some el →
          ∃ el2 : EntryElement, r2.entryElements[k]? = some el2 ∧ el2.entry = el.entry ∧
            el2.runningScamTotal = el.runningScamTotal) :=
  running_totals_depend_on_flattening (exampleProps twoPages none)
    (exampleProps [{ entries := [entryA, entryB, entryC], hasPrev := false }] (some "c"))
    exampleHooks exampleHooks { pages := twoPages }
    { pages := [{ entries := [entryA, entryB, entryC], hasPrev := false }] } rfl rfl

end TimelineComponent
